import Mathlib

/-!
# Verification of the GitHub webhook server core

Shallow embedding of `src/server.js` (signature verification, push-payload
classification, and the `/webhook` route pipeline), together with the
platform primitives the code calls (HMAC-SHA256, Node's hex `Buffer`
decoding, `crypto.timingSafeEqual`, and the JavaScript string/property
operations used by the handler).

Bytes are modelled as `Nat` values below 256, byte strings as `List Nat`,
and JavaScript strings as Lean `String`s.  Code that can throw is modelled
in `Except String`.
-/

set_option maxRecDepth 100000

namespace Webhook

/-! ## Byte-level helpers -/

/-- Big-endian expansion of `n` into exactly `k` bytes (most significant first). -/
def beBytes : Nat → Nat → List Nat
  | 0, _ => []
  | k + 1, n => beBytes k (n / 256) ++ [n % 256]

/-- Truncation to a 32-bit word. -/
def w32 (n : Nat) : Nat := n % 4294967296

/-- Right rotation of a 32-bit word by `n` bits. -/
def rotr (n x : Nat) : Nat := w32 ((x >>> n) ||| (x <<< (32 - n)))

/-! ## SHA-256 (FIPS 180-4), the hash underlying `crypto.createHmac('sha256', _)` -/

/-- The `Ch` function of the SHA-256 round. -/
def ch (e f g : Nat) : Nat := (e &&& f) ^^^ ((e ^^^ 0xffffffff) &&& g)

/-- The `Maj` function of the SHA-256 round. -/
def maj (a b c : Nat) : Nat := (a &&& b) ^^^ (a &&& c) ^^^ (b &&& c)

/-- Big Σ₀. -/
def bigSigma0 (x : Nat) : Nat := rotr 2 x ^^^ rotr 13 x ^^^ rotr 22 x

/-- Big Σ₁. -/
def bigSigma1 (x : Nat) : Nat := rotr 6 x ^^^ rotr 11 x ^^^ rotr 25 x

/-- Small σ₀ (message schedule). -/
def smallSigma0 (x : Nat) : Nat := rotr 7 x ^^^ rotr 18 x ^^^ (x >>> 3)

/-- Small σ₁ (message schedule). -/
def smallSigma1 (x : Nat) : Nat := rotr 17 x ^^^ rotr 19 x ^^^ (x >>> 10)

/-- The 64 SHA-256 round constants (FIPS 180-4 §4.2.2, written in decimal). -/
def shaK : List Nat :=
  [1116352408, 1899447441, 3049323471, 3921009573, 961987163, 1508970993,
   2453635748, 2870763221, 3624381080, 310598401, 607225278, 1426881987,
   1925078388, 2162078206, 2614888103, 3248222580, 3835390401, 4022224774,
   264347078, 604807628, 770255983, 1249150122, 1555081692, 1996064986,
   2554220882, 2821834349, 2952996808, 3210313671, 3336571891, 3584528711,
   113926993, 338241895, 666307205, 773529912, 1294757372, 1396182291,
   1695183700, 1986661051, 2177026350, 2456956037, 2730485921, 2820302411,
   3259730800, 3345764771, 3516065817, 3600352804, 4094571909, 275423344,
   430227734, 506948616, 659060556, 883997877, 958139571, 1322822218,
   1537002063, 1747873779, 1955562222, 2024104815, 2227730452, 2361852424,
   2428436474, 2756734187, 3204031479, 3329325298]

/-- The SHA-256 initial hash value. -/
structure Hash8 where
  a : Nat
  b : Nat
  c : Nat
  d : Nat
  e : Nat
  f : Nat
  g : Nat
  h : Nat
  deriving DecidableEq

/-- Initial state H⁽⁰⁾ (FIPS 180-4 §5.3.3, written in decimal). -/
def shaH0 : Hash8 :=
  ⟨1779033703, 3144134277, 1013904242, 2773480762,
   1359893119, 2600822924, 528734635, 1541459225⟩

/-- One SHA-256 compression round on the eight working variables. -/
def shaStep (kt wt : Nat) (s : Hash8) : Hash8 :=
  let t1 := w32 (s.h + bigSigma1 s.e + ch s.e s.f s.g + kt + wt)
  let t2 := w32 (bigSigma0 s.a + maj s.a s.b s.c)
  ⟨w32 (t1 + t2), s.a, s.b, s.c, w32 (s.d + t1), s.e, s.f, s.g⟩

/-- Componentwise 32-bit addition of hash states. -/
def addHash (x y : Hash8) : Hash8 :=
  ⟨w32 (x.a + y.a), w32 (x.b + y.b), w32 (x.c + y.c), w32 (x.d + y.d),
   w32 (x.e + y.e), w32 (x.f + y.f), w32 (x.g + y.g), w32 (x.h + y.h)⟩

/-- Extend a 16-word block by `n` further message-schedule words. -/
def extendW (ws : List Nat) : Nat → List Nat
  | 0 => ws
  | n + 1 =>
    let prev := extendW ws n
    let len := prev.length
    prev ++ [w32 (smallSigma1 (prev.getD (len - 2) 0) + prev.getD (len - 7) 0 +
      smallSigma0 (prev.getD (len - 15) 0) + prev.getD (len - 16) 0)]

/-- SHA-256 compression of one 16-word block into the running state. -/
def compress (s : Hash8) (block : List Nat) : Hash8 :=
  let ws := extendW block 48
  addHash s ((shaK.zip ws).foldl (fun st kw => shaStep kw.1 kw.2 st) s)

/-- SHA-256 padding: `0x80`, zeros to 56 mod 64, then the 64-bit bit length. -/
def sha256pad (ms : List Nat) : List Nat :=
  let z := (64 - (ms.length + 9) % 64) % 64
  ms ++ [128] ++ List.replicate z 0 ++ beBytes 8 (8 * ms.length)

/-- Big-endian 32-bit words of a byte list (length assumed divisible by 4). -/
def toWords : List Nat → List Nat
  | a :: b :: c :: d :: rest => (((a * 256 + b) * 256 + c) * 256 + d) :: toWords rest
  | _ => []

/-- Split a word list into 16-word blocks; `fuel` bounds the number of blocks. -/
def chunk16 : Nat → List Nat → List (List Nat)
  | 0, _ => []
  | _, [] => []
  | fuel + 1, ws => ws.take 16 :: chunk16 fuel (ws.drop 16)

/-- Serialize the final state as 32 big-endian bytes. -/
def digestBytes (s : Hash8) : List Nat :=
  beBytes 4 s.a ++ beBytes 4 s.b ++ beBytes 4 s.c ++ beBytes 4 s.d ++
  beBytes 4 s.e ++ beBytes 4 s.f ++ beBytes 4 s.g ++ beBytes 4 s.h

/-- SHA-256 of a byte list. -/
def sha256 (ms : List Nat) : List Nat :=
  let ws := toWords (sha256pad ms)
  digestBytes ((chunk16 ws.length ws).foldl compress shaH0)

/-- HMAC-SHA256 (RFC 2104) with a 64-byte block, as `crypto.createHmac('sha256', key)`. -/
def hmacSha256 (key msg : List Nat) : List Nat :=
  let k0 := if 64 < key.length then sha256 key else key
  let kp := k0 ++ List.replicate (64 - k0.length) 0
  sha256 ((kp.map (fun b => b ^^^ 0x5c)) ++ sha256 ((kp.map (fun b => b ^^^ 0x36)) ++ msg))

/-! ## Hex encoding and Node's `Buffer.from(_, 'hex')` decoding -/

/-- Lowercase hex digit for a value below 16. -/
def toHexDigit (n : Nat) : Char :=
  if n < 10 then Char.ofNat (48 + n) else Char.ofNat (87 + n)

/-- The two lowercase hex digits of a byte. -/
def hexEncodeByte (b : Nat) : List Char :=
  [toHexDigit (b / 16 % 16), toHexDigit (b % 16)]

/-- Lowercase hex string of a byte list, as Node's `digest('hex')`. -/
def hexEncode (bs : List Nat) : String :=
  ⟨(bs.map hexEncodeByte).flatten⟩

/-- Value of a hex digit character (Node accepts both cases), or `none`. -/
def hexDigitVal (c : Char) : Option Nat :=
  if 48 ≤ c.toNat ∧ c.toNat ≤ 57 then some (c.toNat - 48)
  else if 97 ≤ c.toNat ∧ c.toNat ≤ 102 then some (c.toNat - 87)
  else if 65 ≤ c.toNat ∧ c.toNat ≤ 70 then some (c.toNat - 55)
  else none

/-- Node's `Buffer.from(s, 'hex')`: decode hex pairs from the left and stop
silently at the first invalid or incomplete pair (it never throws). -/
def hexDecodeNode : List Char → List Nat
  | c1 :: c2 :: rest =>
    match hexDigitVal c1, hexDigitVal c2 with
    | some hi, some lo => (16 * hi + lo) :: hexDecodeNode rest
    | _, _ => []
  | _ => []

/-! ## JavaScript string operations used by the handler -/

/-- Does `pat` occur at the start of `s`?  (Character-list prefix test.) -/
def charsHavePre : List Char → List Char → Bool
  | [], _ => true
  | _ :: _, [] => false
  | p :: ps, c :: cs => p == c && charsHavePre ps cs

/-- Does `pat` occur somewhere inside `s`?  Models JS `s.includes(pat)`. -/
def charsContain (s pat : List Char) : Bool :=
  charsHavePre pat s ||
    match s with
    | [] => false
    | _ :: t => charsContain t pat

/-- JS `s.includes(pat)` on strings. -/
def jsIncludes (s pat : String) : Bool :=
  charsContain s.data pat.data

/-- Remove the first occurrence of `pat` from `s` (no change when absent). -/
def removeFirst (pat : List Char) (s : List Char) : List Char :=
  if charsHavePre pat s then s.drop pat.length
  else
    match s with
    | [] => []
    | c :: t => c :: removeFirst pat t

/-- JS `s.replace(pat, '')`: delete the first occurrence of the plain-string
pattern `pat` anywhere in `s`; `s` is unchanged when `pat` does not occur. -/
def jsReplaceFirst (s pat : String) : String :=
  ⟨removeFirst pat.data s.data⟩

/-- JS `s.toLowerCase()` (simple per-character lowering). -/
def jsToLower (s : String) : String :=
  ⟨s.data.map Char.toLower⟩

/-! ## The signature verifier (`verifyGitHubSignature`, `src/server.js` 42–70) -/

/-- `crypto.timingSafeEqual(a, b)`: throws a `RangeError` when the buffers
have different lengths, otherwise reports byte-for-byte equality. -/
def timingSafeEqual (a b : List Nat) : Except String Bool :=
  if a.length = b.length then .ok (decide (a = b))
  else .error "RangeError: Input buffers must have the same byte length"

/-- JS truthiness of the optional secret (`!WEBHOOK_SECRET`): an unset or
empty secret is falsy. -/
def secretFalsy : Option (List Nat) → Bool
  | none => true
  | some key => key.isEmpty

/-- JS truthiness of the optional signature header (`!signature`): an absent
header or an empty header string is falsy. -/
def sigFalsy : Option String → Bool
  | none => true
  | some s => s.data.isEmpty

/-- `verifyGitHubSignature(payload, signature)` of `src/server.js`, with the
ambient `WEBHOOK_SECRET` passed explicitly as a byte string.  The payload is
the raw body bytes.  A thrown exception is modelled as `.error`. -/
def verifyGitHubSignature (payload : List Nat) (signature : Option String)
    (secret : Option (List Nat)) : Except String Bool :=
  if secretFalsy secret then .ok true
  else if sigFalsy signature then .ok false
  else
    let expectedSignature := hexEncode (hmacSha256 (secret.getD []) payload)
    let providedSignature := removeFirst "sha256=".data (signature.getD "").data
    timingSafeEqual (hexDecodeNode expectedSignature.data) (hexDecodeNode providedSignature)

/-- `WebhookTester.generateSignature(payload, secret)` of the test client:
`sha256=` followed by the lowercase hex HMAC digest, or `null` without a
(truthy) secret. -/
def generateSignature (payload : List Nat) (secret : Option (List Nat)) : Option String :=
  match secret with
  | none => none
  | some key => if key.isEmpty then none else some ("sha256=" ++ hexEncode (hmacSha256 key payload))

/-- Raw body bytes of the one-character payload `p`. -/
def demoPayload : List Nat := [112]

/-- Secret bytes of the one-character secret `s`. -/
def demoSecret : List Nat := [115]

/-- The correct signature token for `demoPayload` under `demoSecret`
(`sha256=` + lowercase hex of the HMAC-SHA256 digest). -/
def demoToken : String := "sha256=" ++ hexEncode (hmacSha256 demoSecret demoPayload)

/-- Flip bit `bit` of the character at index `i` of an ASCII string. -/
def flipCharBit (i bit : Nat) (s : String) : String :=
  ⟨s.data.enum.map fun jc => if jc.1 = i then Char.ofNat (jc.2.toNat ^^^ (1 <<< bit)) else jc.2⟩

/-- `demoToken` with a single bit flipped: bit 6 of the first hex digit turns
it into a non-hex character. -/
def flippedToken : String := flipCharBit 7 6 demoToken

/-! ## Parsed JSON values and JavaScript property access -/

/-- A parsed JSON value (`JSON.parse` output), plus `undefined` for the value of
an absent property. -/
inductive JsVal where
  | undefined
  | null
  | bool (b : Bool)
  | num (n : Int)
  | str (s : String)
  | arr (elems : List JsVal)
  | obj (fields : List (String × JsVal))

/-- First field named `k` (object keys are assumed unique, as after
`JSON.parse`); absent fields read as `undefined`. -/
def lookupField : List (String × JsVal) → String → JsVal
  | [], _ => .undefined
  | (k', v) :: rest, k => if k' = k then v else lookupField rest k

/-- JS property access `v[k]`: throws on `null`/`undefined` receivers,
boxes the other primitives (their absent properties read as `undefined`). -/
def jsGet (v : JsVal) (k : String) : Except String JsVal :=
  match v with
  | .undefined => .error "TypeError: cannot read properties of undefined"
  | .null => .error "TypeError: cannot read properties of null"
  | .obj fields => .ok (lookupField fields k)
  | _ => .ok .undefined

/-- Whether a value is a JS array. -/
def JsVal.isArr : JsVal → Bool
  | .arr _ => true
  | _ => false

/-- JS `Set` element equality (SameValueZero) on parsed JSON values: primitives
compare by value; objects and arrays compare by reference, and `JSON.parse`
creates a fresh reference per occurrence, so they are never identical here. -/
def sameValueZero : JsVal → JsVal → Bool
  | .undefined, .undefined => true
  | .null, .null => true
  | .bool a, .bool b => a == b
  | .num a, .num b => a == b
  | .str a, .str b => a == b
  | _, _ => false

/-- `Set.prototype.add` on an insertion-ordered element list. -/
def setAdd (acc : List JsVal) (x : JsVal) : List JsVal :=
  if acc.any (fun y => sameValueZero y x) then acc else acc ++ [x]

/-! ## Push classifier (`extractModifiedFiles`, `checkFilesOfInterest`) -/

/-- Elements of an array value; anything else contributes nothing
(`commit.added && Array.isArray(commit.added)` — arrays are always truthy). -/
def arrElems : JsVal → List JsVal
  | .arr xs => xs
  | _ => []

/-- The paths one commit record contributes, in source order
(added, then modified, then removed); property access may throw. -/
def commitPaths (commit : JsVal) : Except String (List JsVal) := do
  let a ← jsGet commit "added"
  let m ← jsGet commit "modified"
  let r ← jsGet commit "removed"
  pure (arrElems a ++ arrElems m ++ arrElems r)

/-- `extractModifiedFiles(payload)` of `src/server.js` 77–100: a `Set`-union
of every commit's added/modified/removed lists, returned in insertion order. -/
def extractModifiedFiles (payload : JsVal) : Except String (List JsVal) := do
  let commits ← jsGet payload "commits"
  match commits with
  | .arr cs =>
    cs.foldlM (fun acc c => do
      let fs ← commitPaths c
      pure (fs.foldl setAdd acc)) []
  | _ => pure []

/-- The four interest flags computed by `checkFilesOfInterest`. -/
structure InterestFlags where
  indexHtml : Bool
  packageJson : Bool
  configFiles : Bool
  dockerfiles : Bool
  deriving DecidableEq

/-- `checkFilesOfInterest(modifiedFiles)` of `src/server.js` 107–124 on
string paths (the only inputs on which the JS code does not throw). -/
def checkFilesOfInterest (modifiedFiles : List String) : InterestFlags where
  indexHtml := modifiedFiles.any fun file => jsIncludes file "index.html"
  packageJson := modifiedFiles.any fun file => jsIncludes file "package.json"
  configFiles := modifiedFiles.any fun file =>
    jsIncludes file ".env" || jsIncludes file "config." ||
    jsIncludes file ".yml" || jsIncludes file ".yaml"
  dockerfiles := modifiedFiles.any fun file =>
    jsIncludes (jsToLower file) "dockerfile" || jsIncludes file "docker-compose"

/-- JS `Array.prototype.some` with a predicate that may throw: scans left to
right and stops at the first `true` or the first exception. -/
def jsSomeM (p : JsVal → Except String Bool) : List JsVal → Except String Bool
  | [] => .ok false
  | x :: t =>
    match p x with
    | .error e => .error e
    | .ok true => .ok true
    | .ok false => jsSomeM p t

/-- `file.includes(pat)` on an arbitrary value: throws unless a string. -/
def jsIncludesV (v : JsVal) (pat : String) : Except String Bool :=
  match v with
  | .str s => .ok (jsIncludes s pat)
  | _ => .error "TypeError: file.includes is not a function"

/-- The `configFiles` predicate of line 111–116 on an arbitrary value. -/
def configPredV (v : JsVal) : Except String Bool :=
  match v with
  | .str s => .ok (jsIncludes s ".env" || jsIncludes s "config." ||
      jsIncludes s ".yml" || jsIncludes s ".yaml")
  | _ => .error "TypeError: file.includes is not a function"

/-- The `dockerfiles` predicate of line 117–120 on an arbitrary value. -/
def dockerPredV (v : JsVal) : Except String Bool :=
  match v with
  | .str s => .ok (jsIncludes (jsToLower s) "dockerfile" || jsIncludes s "docker-compose")
  | _ => .error "TypeError: file.toLowerCase is not a function"

/-- `checkFilesOfInterest` on arbitrary extracted values, with the JS
exception behaviour of the four `some` scans. -/
def checkFilesOfInterestV (modifiedFiles : List JsVal) : Except String InterestFlags := do
  let ih ← jsSomeM (fun f => jsIncludesV f "index.html") modifiedFiles
  let pj ← jsSomeM (fun f => jsIncludesV f "package.json") modifiedFiles
  let cf ← jsSomeM configPredV modifiedFiles
  let dk ← jsSomeM dockerPredV modifiedFiles
  pure ⟨ih, pj, cf, dk⟩

/-! ## Push event processing (`processPushEvent`, `src/server.js` 130–177) -/

/-- The result object built at `src/server.js` 170–176. -/
structure PushResult where
  processed : Bool
  repository : JsVal
  branch : String
  modifiedFiles : List JsVal
  filesOfInterest : InterestFlags

/-- `processPushEvent(payload)`: field accesses, branch computation,
extraction and classification in source order; JS exceptions are `.error`.
The `logger.info` call at line 139 reads `payload.commits.length`, which
throws when `commits` is `null` or absent. -/
def processPushEvent (payload : JsVal) : Except String PushResult := do
  let repoObj ← jsGet payload "repository"
  let repository ← jsGet repoObj "full_name"
  let pusherObj ← jsGet payload "pusher"
  let _pusher ← jsGet pusherObj "name"
  let refV ← jsGet payload "ref"
  match refV with
  | .str ref =>
    let branch := jsReplaceFirst ref "refs/heads/"
    let modifiedFiles ← extractModifiedFiles payload
    let filesOfInterest ← checkFilesOfInterestV modifiedFiles
    let commitsV ← jsGet payload "commits"
    match commitsV with
    | .undefined => .error "TypeError: cannot read properties of undefined"
    | .null => .error "TypeError: cannot read properties of null"
    | _ => pure ⟨true, repository, branch, modifiedFiles, filesOfInterest⟩
  | _ => .error "TypeError: ref.replace is not a function"

/-! ## The `/webhook` route (`src/server.js` 189–252) -/

/-- Responses of the `/webhook` route, tagged as in the spec's pipeline:
`unauthorized` → 401, `badPayload` → 400, `ignored`/`pushProcessed` → 200,
`fault` (an exception caught by the surrounding `try`) → 500. -/
inductive RouteResult where
  | unauthorized
  | badPayload
  | ignored (message : String) (processed : Bool)
  | pushProcessed (message : String) (delivery : Option String) (result : PushResult)
  | fault

/-- JS template-literal rendering of a possibly-undefined header value. -/
def jsTemplateOpt : Option String → String
  | none => "undefined"
  | some s => s

/-- The `/webhook` handler pipeline.  `parseJson` stands for the platform's
`JSON.parse` (an excluded collaborator per the spec): `none` models a parse
exception, which the handler maps to a 400 response. -/
def webhookRoute (body : List Nat) (signature : Option String) (event : Option String)
    (delivery : Option String) (secret : Option (List Nat))
    (parseJson : List Nat → Option JsVal) : RouteResult :=
  match verifyGitHubSignature body signature secret with
  | .error _ => .fault
  | .ok false => .unauthorized
  | .ok true =>
    match parseJson body with
    | none => .badPayload
    | some payload =>
      if event == some "push" then
        match processPushEvent payload with
        | .error _ => .fault
        | .ok r => .pushProcessed "Webhook processed successfully" delivery r
      else .ignored (jsTemplateOpt event ++ " event ignored") false

/-! ## Structured push events, for quantified statements about the classifier -/

/-- A commit record as in the spec's data model: three optional path lists. -/
structure Commit where
  added : Option (List String)
  modified : Option (List String)
  removed : Option (List String)

/-- One optional list field of the JSON form of a commit record. -/
def optField (k : String) : Option (List String) → List (String × JsVal)
  | none => []
  | some l => [(k, .arr (l.map .str))]

/-- The JSON form of a commit record (absent lists are absent fields). -/
def Commit.toJs (c : Commit) : JsVal :=
  .obj (optField "added" c.added ++ optField "modified" c.modified ++ optField "removed" c.removed)

/-- All paths of one commit record, in source scan order. -/
def Commit.paths (c : Commit) : List String :=
  c.added.getD [] ++ c.modified.getD [] ++ c.removed.getD []

/-- A push payload carrying exactly the given commit records. -/
def payloadOfCommits (cs : List Commit) : JsVal :=
  .obj [("commits", .arr (cs.map Commit.toJs))]

/-- Left fold of JS `Set.add` on string elements. -/
def strDedup (acc : List String) : List String → List String
  | [] => acc
  | s :: t => strDedup (if s ∈ acc then acc else acc ++ [s]) t

/-- A commit adding the file `a`. -/
def commitA : Commit := ⟨some ["a"], none, none⟩

/-- A commit modifying the file `b`. -/
def commitB : Commit := ⟨none, some ["b"], none⟩

/-- A push payload whose ref contains `refs/heads/` without starting with it. -/
def c5Payload : JsVal :=
  .obj [("ref", .str "refs/tags/refs/heads/v1"),
        ("repository", .obj [("full_name", .str "octo/demo")]),
        ("pusher", .obj [("name", .str "octo")]),
        ("commits", .arr [])]

/-- A well-formed push payload on branch `main`. -/
def c5GoodPayload : JsVal :=
  .obj [("ref", .str "refs/heads/main"),
        ("repository", .obj [("full_name", .str "octo/demo")]),
        ("pusher", .obj [("name", .str "octo")]),
        ("commits", .arr [])]

/-! ## Test vectors: the embedded primitives match the platform ones -/

theorem sha256_empty_vector : hexEncode (sha256 []) =
    "e3b0c44298fc1c149afbf4c8996fb92427ae41e4649b934ca495991b7852b855" := by rfl

theorem hmacSha256_vector : hexEncode (hmacSha256 [115] []) =
    "64eca07cce67929c357d63d0a4aec207e774800403298914fc04e88ce02ac49f" := by rfl

theorem jsReplaceFirst_head_vector :
    jsReplaceFirst "refs/heads/main" "refs/heads/" = "main" := by rfl

theorem jsReplaceFirst_mid_vector :
    jsReplaceFirst "a-refs/heads/b" "refs/heads/" = "a-b" := by rfl

theorem jsIncludes_case_vector :
    jsIncludes "Dockerfile.prod" "dockerfile" = false ∧
    jsIncludes (jsToLower "Dockerfile.prod") "dockerfile" = true := ⟨by rfl, by rfl⟩

theorem verify_generateSignature_vector :
    verifyGitHubSignature [112] (generateSignature [112] (some [115])) (some [115]) =
      .ok true := by rfl

/-! ## Lemmas: hex encoding round-trips on byte lists -/

theorem hexDigitVal_toHexDigit : ∀ n < 16, hexDigitVal (toHexDigit n) = some n := by
  intro n h
  interval_cases n <;> rfl

theorem mem_beBytes_lt : ∀ (k n : Nat), ∀ b ∈ beBytes k n, b < 256 := by
  intro k
  induction k with
  | zero => simp [beBytes]
  | succ k ih =>
    intro n b hb
    rw [beBytes, List.mem_append] at hb
    rcases hb with hb | hb
    · exact ih _ b hb
    · simp at hb
      omega

theorem mem_digestBytes_lt (s : Hash8) : ∀ b ∈ digestBytes s, b < 256 := by
  intro b hb
  rw [digestBytes] at hb
  simp only [List.mem_append] at hb
  rcases hb with ((((((hb | hb) | hb) | hb) | hb) | hb) | hb) | hb <;>
    exact mem_beBytes_lt 4 _ b hb

theorem mem_sha256_lt (ms : List Nat) : ∀ b ∈ sha256 ms, b < 256 := by
  intro b hb
  exact mem_digestBytes_lt _ b hb

theorem mem_hmacSha256_lt (key msg : List Nat) : ∀ b ∈ hmacSha256 key msg, b < 256 := by
  intro b hb
  exact mem_sha256_lt _ b hb

theorem hexDecode_hexEncode (bs : List Nat) (h : ∀ b ∈ bs, b < 256) :
    hexDecodeNode (hexEncode bs).data = bs := by
  induction bs with
  | nil => rfl
  | cons b t ih =>
    have hb : b < 256 := h b (List.mem_cons_self b t)
    have ht : ∀ x ∈ t, x < 256 := fun x hx => h x (List.mem_cons_of_mem b hx)
    show hexDecodeNode (((b :: t).map hexEncodeByte).flatten) = b :: t
    rw [List.map_cons, List.flatten_cons]
    show hexDecodeNode (toHexDigit (b / 16 % 16) :: toHexDigit (b % 16) :: _) = b :: t
    rw [hexDecodeNode, hexDigitVal_toHexDigit _ (Nat.mod_lt _ (by omega)),
      hexDigitVal_toHexDigit _ (Nat.mod_lt _ (by omega))]
    have hd : b / 16 % 16 = b / 16 := Nat.mod_eq_of_lt (by omega)
    have hval : 16 * (b / 16 % 16) + b % 16 = b := by rw [hd]; omega
    show (16 * (b / 16 % 16) + b % 16) :: hexDecodeNode _ = b :: t
    rw [hval]
    exact congrArg (b :: ·) (ih ht)

/-! ## Lemmas: prefix scanning and first-occurrence removal -/

theorem charsHavePre_iff (p s : List Char) : charsHavePre p s = true ↔ p <+: s := by
  induction p generalizing s with
  | nil => simp [charsHavePre]
  | cons a p ih =>
    cases s with
    | nil => simp [charsHavePre]
    | cons b t => simp [charsHavePre, ih, List.cons_prefix_cons]

theorem charsHavePre_append_self (p r : List Char) : charsHavePre p (p ++ r) = true := by
  rw [charsHavePre_iff]
  exact ⟨r, rfl⟩

theorem charsContain_iff (s p : List Char) : charsContain s p = true ↔ p <:+: s := by
  induction s with
  | nil =>
    rw [charsContain]
    simp [charsHavePre_iff]
  | cons c t ih =>
    rw [charsContain]
    simp only [Bool.or_eq_true, charsHavePre_iff, ih, List.infix_cons_iff]

theorem removeFirst_append_self (p r : List Char) : removeFirst p (p ++ r) = r := by
  rw [removeFirst.eq_def, if_pos (charsHavePre_append_self p r), List.drop_left]

theorem removeFirst_of_not_contain (p : List Char) :
    ∀ s : List Char, charsContain s p = false → removeFirst p s = s := by
  intro s
  induction s with
  | nil =>
    intro _
    rw [removeFirst.eq_def]
    split <;> simp
  | cons c t ih =>
    intro h
    rw [charsContain] at h
    rw [Bool.or_eq_false_iff] at h
    rw [removeFirst.eq_def, if_neg (by simp [h.1])]
    exact congrArg (c :: ·) (ih h.2)

theorem strData_append (a b : String) : (a ++ b).data = a.data ++ b.data := rfl

/-! ## Claim theorems: the signature verifier -/

/-- C1.  The spec requires: a provided token that is not valid hex, or whose
hex decoding is not 32 bytes long, is treated as a non-match — `verify`
returns false and does not throw.  The code instead feeds Node's
prefix-decoding `Buffer.from(_, 'hex')` output to `crypto.timingSafeEqual`,
which throws a `RangeError` whenever the decoded length differs from 32
(first conjunct, token `sha256=00`), and even accepts an invalid-hex token
whose longest valid hex prefix matches the expected digest (second conjunct,
the correct token with `zz` appended). -/
theorem verify_malformed_token_code_bug :
    verifyGitHubSignature demoPayload (some "sha256=00") (some demoSecret) =
      .error "RangeError: Input buffers must have the same byte length" ∧
    verifyGitHubSignature demoPayload (some (demoToken ++ "zz")) (some demoSecret) =
      .ok true :=
  ⟨rfl, rfl⟩

/-- C2.  The spec requires `verify(P, T', S) = false` for every single-bit
corruption T' of the correct token.  `flippedToken` differs from `demoToken`
in exactly one character, whose code differs in exactly one bit (bit 6 of the
first hex digit, turning `9` into the non-hex `y`); on it the code throws a
`RangeError` out of `crypto.timingSafeEqual` instead of returning false. -/
theorem verify_bitflip_code_bug :
    flippedToken ≠ demoToken ∧
    flippedToken.length = demoToken.length ∧
    (flippedToken.data.zip demoToken.data).countP (fun q => q.1 != q.2) = 1 ∧
    (∀ q ∈ flippedToken.data.zip demoToken.data,
      q.1.toNat ^^^ q.2.toNat = 0 ∨ q.1.toNat ^^^ q.2.toNat = 64) ∧
    verifyGitHubSignature demoPayload (some flippedToken) (some demoSecret) =
      .error "RangeError: Input buffers must have the same byte length" :=
  ⟨by decide, by decide, by decide, by decide, rfl⟩

/-- C3.  Round trip of signing and verifying: for every payload and every
present (non-empty) secret, verifying the token `sha256=` + lowercase hex of
HMAC-SHA256(secret, payload) — exactly what the test client's
`generateSignature` produces — returns true. -/
theorem verify_sign_roundtrip (payload key : List Nat) (hk : key ≠ []) :
    verifyGitHubSignature payload
      (some ("sha256=" ++ hexEncode (hmacSha256 key payload))) (some key) = .ok true := by
  have hsecret : secretFalsy (some key) = false := by
    cases key with
    | nil => exact absurd rfl hk
    | cons a t => rfl
  have hsig : sigFalsy (some ("sha256=" ++ hexEncode (hmacSha256 key payload))) = false := rfl
  rw [verifyGitHubSignature, hsecret, hsig]
  simp only [Bool.false_eq_true, if_false, Option.getD_some]
  rw [strData_append, removeFirst_append_self,
    hexDecode_hexEncode _ (mem_hmacSha256_lt key payload),
    timingSafeEqual, if_pos rfl]
  simp

/-- C3 witness: the round trip at the concrete payload `p` and secret `s`. -/
theorem verify_sign_roundtrip_witness :
    verifyGitHubSignature [112]
      (some ("sha256=" ++ hexEncode (hmacSha256 [115] [112]))) (some [115]) = .ok true :=
  verify_sign_roundtrip [112] [115] (by decide)

/-- C4.  With a configured (non-empty) secret and an absent signature header,
`verify` returns false; with an absent secret it returns true for every
payload and every provided token (authentication disabled). -/
theorem verify_secret_gating :
    (∀ (payload key : List Nat), key ≠ [] →
      verifyGitHubSignature payload none (some key) = .ok false) ∧
    (∀ (payload : List Nat) (signature : Option String),
      verifyGitHubSignature payload signature none = .ok true) := by
  constructor
  · intro payload key hk
    have hsecret : secretFalsy (some key) = false := by
      cases key with
      | nil => exact absurd rfl hk
      | cons a t => rfl
    rw [verifyGitHubSignature, hsecret]
    simp [sigFalsy]
  · intro payload signature
    rfl

/-- C4 witness: both directions at concrete inputs. -/
theorem verify_secret_gating_witness :
    verifyGitHubSignature [112] none (some [115]) = .ok false ∧
    verifyGitHubSignature [112] (some "sha256=junk") none = .ok true :=
  ⟨verify_secret_gating.1 [112] [115] (by decide),
   verify_secret_gating.2 [112] (some "sha256=junk")⟩

/-! ## Lemmas: the `Set`-based deduplicating union -/

theorem any_sameValueZero_eq_mem (acc : List String) (s : String) :
    ((acc.map JsVal.str).any fun y => sameValueZero y (.str s)) = decide (s ∈ acc) := by
  induction acc with
  | nil => rfl
  | cons a t ih =>
    rw [List.map_cons, List.any_cons, ih]
    by_cases h : a = s
    · subst h
      simp [sameValueZero]
    · have ha : sameValueZero (JsVal.str a) (JsVal.str s) = false := by
        simp [sameValueZero, h]
      rw [ha, Bool.false_or, decide_eq_decide]
      rw [List.mem_cons]
      constructor
      · exact Or.inr
      · rintro (hs | hs)
        · exact absurd hs.symm h
        · exact hs

theorem mem_strDedup (l : List String) : ∀ (acc : List String) (s : String),
    s ∈ strDedup acc l ↔ s ∈ acc ∨ s ∈ l := by
  induction l with
  | nil =>
    intro acc s
    simp [strDedup]
  | cons x t ih =>
    intro acc s
    rw [strDedup]
    by_cases hx : x ∈ acc
    · rw [if_pos hx, ih]
      rw [List.mem_cons]
      constructor
      · rintro (h | h)
        · exact Or.inl h
        · exact Or.inr (Or.inr h)
      · rintro (h | h | h)
        · exact Or.inl h
        · subst h
          exact Or.inl hx
        · exact Or.inr h
    · rw [if_neg hx, ih]
      simp only [List.mem_append, List.mem_cons, List.mem_singleton]
      tauto

theorem nodup_strDedup (l : List String) :
    ∀ acc : List String, acc.Nodup → (strDedup acc l).Nodup := by
  induction l with
  | nil => exact fun acc h => h
  | cons x t ih =>
    intro acc h
    rw [strDedup]
    by_cases hx : x ∈ acc
    · rw [if_pos hx]
      exact ih acc h
    · rw [if_neg hx]
      refine ih _ ?_
      simp [List.nodup_append, h, hx]

theorem strDedup_append (l1 l2 : List String) : ∀ acc,
    strDedup acc (l1 ++ l2) = strDedup (strDedup acc l1) l2 := by
  induction l1 with
  | nil => intro acc; rfl
  | cons x t ih =>
    intro acc
    rw [List.cons_append, strDedup, strDedup, ih]

theorem foldl_setAdd_map_str (l : List String) : ∀ acc : List String,
    (l.map JsVal.str).foldl setAdd (acc.map JsVal.str) = (strDedup acc l).map JsVal.str := by
  induction l with
  | nil => intro acc; rfl
  | cons s t ih =>
    intro acc
    rw [List.map_cons, List.foldl_cons, strDedup]
    rw [setAdd, any_sameValueZero_eq_mem]
    by_cases hs : s ∈ acc
    · rw [if_pos (by simp [hs]), if_pos hs, ih]
    · rw [if_neg (by simp [hs]), if_neg hs]
      have hmap : acc.map JsVal.str ++ [JsVal.str s] = (acc ++ [s]).map JsVal.str := by
        rw [List.map_append]
        rfl
      rw [hmap, ih]

/-! ## Lemmas: `extractModifiedFiles` on structured push payloads -/

theorem bind_eq_ok {α β : Type} {ma : Except String α} {f : α → Except String β} {b : β}
    (h : (ma >>= f) = .ok b) : ∃ a, ma = .ok a ∧ f a = .ok b := by
  cases ma with
  | error e => exact Except.noConfusion h
  | ok a => exact ⟨a, rfl, h⟩

theorem ok_bind {α β : Type} (x : α) (f : α → Except String β) :
    (Except.ok x >>= f : Except String β) = f x := rfl

theorem pure_eq_ok {α : Type} (x : α) : (pure x : Except String α) = .ok x := rfl

theorem commitPaths_toJs (c : Commit) :
    commitPaths (Commit.toJs c) = .ok (c.paths.map JsVal.str) := by
  rcases c with ⟨a, m, r⟩
  cases a <;> cases m <;> cases r <;>
    simp [commitPaths, Commit.toJs, Commit.paths, optField, jsGet, lookupField, arrElems,
      bind, Except.bind, pure, Except.pure, List.map_append]

theorem extract_go (cs : List Commit) : ∀ acc : List String,
    ((cs.map Commit.toJs).foldlM (fun acc c => do
        let fs ← commitPaths c
        pure (fs.foldl setAdd acc)) (acc.map JsVal.str) : Except String (List JsVal)) =
      .ok ((strDedup acc (cs.flatMap Commit.paths)).map JsVal.str) := by
  induction cs with
  | nil =>
    intro acc
    simp [List.foldlM, pure, Except.pure, strDedup]
  | cons c t ih =>
    intro acc
    rw [List.map_cons, List.foldlM_cons, commitPaths_toJs, ok_bind, pure_eq_ok, ok_bind,
      foldl_setAdd_map_str, ih, List.flatMap_cons, strDedup_append]

theorem extract_payloadOfCommits (cs : List Commit) :
    extractModifiedFiles (payloadOfCommits cs) =
      .ok ((strDedup [] (cs.flatMap Commit.paths)).map JsVal.str) := by
  have h := extract_go cs []
  rw [List.map_nil] at h
  rw [extractModifiedFiles]
  show (Except.ok (JsVal.arr (cs.map Commit.toJs)) >>= _) = _
  rw [ok_bind]
  exact h

/-! ## Claim theorems: the changed-file extraction -/

/-- C6.  On every structured push event, `extractModifiedFiles` succeeds and
returns exactly the deduplicated union of the added, modified and removed
path lists of all commit records, a missing list contributing nothing:
the result is the duplicate-free string list `strDedup [] _` whose members
are precisely the paths occurring in some commit's lists. -/
theorem extract_union_dedup (cs : List Commit) :
    extractModifiedFiles (payloadOfCommits cs) =
      .ok ((strDedup [] (cs.flatMap Commit.paths)).map JsVal.str) ∧
    (strDedup [] (cs.flatMap Commit.paths)).Nodup ∧
    ∀ s : String, s ∈ strDedup [] (cs.flatMap Commit.paths) ↔
      ∃ c ∈ cs, s ∈ c.added.getD [] ∨ s ∈ c.modified.getD [] ∨ s ∈ c.removed.getD [] := by
  refine ⟨extract_payloadOfCommits cs, nodup_strDedup _ [] List.nodup_nil, ?_⟩
  intro s
  rw [mem_strDedup]
  simp [List.mem_flatMap, Commit.paths, List.mem_append, or_assoc]

/-- C8.  Permuting the commit list of a push event leaves the extracted
changed-file set unchanged: the two result lists have the same members. -/
theorem extract_perm_invariant (cs cs' : List Commit) (hperm : cs.Perm cs')
    (l l' : List JsVal)
    (h : extractModifiedFiles (payloadOfCommits cs) = .ok l)
    (h' : extractModifiedFiles (payloadOfCommits cs') = .ok l') :
    ∀ v, v ∈ l ↔ v ∈ l' := by
  intro v
  rw [extract_payloadOfCommits] at h h'
  injection h with h
  injection h' with h'
  subst h
  subst h'
  simp only [List.mem_map, mem_strDedup, List.mem_flatMap, List.not_mem_nil, false_or]
  constructor
  · rintro ⟨s, ⟨c, hc, hs⟩, rfl⟩
    exact ⟨s, ⟨c, hperm.mem_iff.mp hc, hs⟩, rfl⟩
  · rintro ⟨s, ⟨c, hc, hs⟩, rfl⟩
    exact ⟨s, ⟨c, hperm.mem_iff.mpr hc, hs⟩, rfl⟩

/-- C8 witness: swapping two concrete commits preserves membership of `a`. -/
theorem extract_perm_invariant_witness :
    JsVal.str "a" ∈ [JsVal.str "a", JsVal.str "b"] ↔
      JsVal.str "a" ∈ [JsVal.str "b", JsVal.str "a"] :=
  extract_perm_invariant [commitA, commitB] [commitB, commitA]
    (List.Perm.swap commitB commitA [])
    [JsVal.str "a", JsVal.str "b"] [JsVal.str "b", JsVal.str "a"] rfl rfl (JsVal.str "a")

/-- C10.  When the `commits` field of the payload reads as anything other
than an array — in particular when it is absent (`undefined`) — the
extraction returns the empty list without failing. -/
theorem extract_commits_non_array (p v : JsVal)
    (h : jsGet p "commits" = .ok v) (hv : v.isArr = false) :
    extractModifiedFiles p = .ok [] := by
  rw [extractModifiedFiles]
  show (jsGet p "commits" >>= _) = _
  rw [h, ok_bind]
  cases v <;> first
    | rfl
    | exact absurd hv (by simp [JsVal.isArr])

/-- C10 witness: a payload with no `commits` field and one whose `commits`
is a string both extract to the empty list. -/
theorem extract_commits_non_array_witness :
    extractModifiedFiles (.obj []) = .ok [] ∧
    extractModifiedFiles (.obj [("commits", .str "nope")]) = .ok [] :=
  ⟨extract_commits_non_array (.obj []) .undefined rfl rfl,
   extract_commits_non_array (.obj [("commits", .str "nope")]) (.str "nope") rfl rfl⟩

/-! ## Claim theorems: interest-flag classification -/

/-- C7.  Each interest flag is exactly a substring scan over the path list:
`indexHtml` iff some path contains `index.html`, `packageJson` iff some path
contains `package.json`, `configFiles` iff some path contains `.env`,
`config.`, `.yml` or `.yaml` (case-sensitive), `dockerfiles` iff some path
contains `dockerfile` case-insensitively (modelled, as the code computes it,
as containment in the lowercased path) or `docker-compose` case-sensitively.
`Dockerfile.prod` sets only `dockerfiles`; `dockerfile-compose.yml` sets
`configFiles` (via `.yml`) and `dockerfiles`. -/
theorem classify_interest_iff :
    (∀ files : List String,
      ((checkFilesOfInterest files).indexHtml = true ↔
        ∃ f ∈ files, "index.html".data <:+: f.data) ∧
      ((checkFilesOfInterest files).packageJson = true ↔
        ∃ f ∈ files, "package.json".data <:+: f.data) ∧
      ((checkFilesOfInterest files).configFiles = true ↔
        ∃ f ∈ files, ".env".data <:+: f.data ∨ "config.".data <:+: f.data ∨
          ".yml".data <:+: f.data ∨ ".yaml".data <:+: f.data) ∧
      ((checkFilesOfInterest files).dockerfiles = true ↔
        ∃ f ∈ files, "dockerfile".data <:+: (jsToLower f).data ∨
          "docker-compose".data <:+: f.data)) ∧
    checkFilesOfInterest ["Dockerfile.prod"] = ⟨false, false, false, true⟩ ∧
    checkFilesOfInterest ["dockerfile-compose.yml"] = ⟨false, false, true, true⟩ := by
  refine ⟨?_, by decide, by decide⟩
  intro files
  refine ⟨?_, ?_, ?_, ?_⟩ <;>
    simp [checkFilesOfInterest, List.any_eq_true, jsIncludes, charsContain_iff, or_assoc]

/-! ## Claim theorems: the reported branch name -/

/-- C5 counterexample.  The claim says a ref that does not start with
`refs/heads/` is reported unchanged.  On `refs/tags/refs/heads/v1` — which
does not start with the prefix — the code's `ref.replace('refs/heads/', '')`
still deletes the embedded occurrence and reports `refs/tags/v1` ≠ ref. -/
theorem branch_strip_counterexample :
    Except.map PushResult.branch (processPushEvent c5Payload) = .ok "refs/tags/v1" ∧
    charsHavePre "refs/heads/".data "refs/tags/refs/heads/v1".data = false ∧
    ("refs/tags/v1" : String) ≠ "refs/tags/refs/heads/v1" :=
  ⟨rfl, by decide, by decide⟩

/-- C5 amended.  In every successful `processPushEvent` result the reported
branch is the ref with the FIRST occurrence of `refs/heads/` (anywhere in
the string) removed; consequently a ref of the form `refs/heads/ ++ rest`
is reported as `rest`, and a ref not containing the substring at all is
reported unchanged. -/
theorem branch_replaceFirst_amended (p : JsVal) (r : PushResult) (ref : String)
    (hp : processPushEvent p = .ok r)
    (href : jsGet p "ref" = .ok (.str ref)) :
    r.branch = jsReplaceFirst ref "refs/heads/" ∧
    (∀ rest : List Char, ref.data = "refs/heads/".data ++ rest → r.branch.data = rest) ∧
    (charsContain ref.data "refs/heads/".data = false → r.branch = ref) := by
  rw [processPushEvent] at hp
  obtain ⟨repoObj, h1, hp⟩ := bind_eq_ok hp
  obtain ⟨repository, h2, hp⟩ := bind_eq_ok hp
  obtain ⟨pusherObj, h3, hp⟩ := bind_eq_ok hp
  obtain ⟨pusherName, h4, hp⟩ := bind_eq_ok hp
  obtain ⟨refV, h5, hp⟩ := bind_eq_ok hp
  rw [href] at h5
  injection h5 with h5
  subst h5
  obtain ⟨files, h6, hp⟩ := bind_eq_ok hp
  obtain ⟨flags, h7, hp⟩ := bind_eq_ok hp
  obtain ⟨commitsV, h8, hp⟩ := bind_eq_ok hp
  have hbr : r.branch = jsReplaceFirst ref "refs/heads/" := by
    cases commitsV
    case undefined => exact Except.noConfusion hp
    case null => exact Except.noConfusion hp
    all_goals
      injection hp with hp
      rw [← hp]
  refine ⟨hbr, ?_, ?_⟩
  · intro rest hrest
    rw [hbr]
    show removeFirst "refs/heads/".data ref.data = rest
    rw [hrest, removeFirst_append_self]
  · intro hnc
    rw [hbr]
    show (⟨removeFirst "refs/heads/".data ref.data⟩ : String) = ref
    rw [removeFirst_of_not_contain _ _ hnc]

/-- C5 amended, witness: the concrete push to `refs/heads/main`. -/
theorem branch_replaceFirst_amended_witness :
    (PushResult.mk true (.str "octo/demo") "main" [] ⟨false, false, false, false⟩).branch =
      jsReplaceFirst "refs/heads/main" "refs/heads/" ∧
    (∀ rest : List Char, "refs/heads/main".data = "refs/heads/".data ++ rest →
      (PushResult.mk true (.str "octo/demo") "main" []
        ⟨false, false, false, false⟩).branch.data = rest) ∧
    (charsContain "refs/heads/main".data "refs/heads/".data = false →
      (PushResult.mk true (.str "octo/demo") "main" []
        ⟨false, false, false, false⟩).branch = "refs/heads/main") :=
  branch_replaceFirst_amended c5GoodPayload
    (PushResult.mk true (.str "octo/demo") "main" [] ⟨false, false, false, false⟩)
    "refs/heads/main" rfl rfl

/-! ## Claim theorems: the route pipeline on non-push events -/

/-- C9.  Every verified, successfully parsed request whose event header is
present but differs from `push` is answered with the `Ignored` result:
`processed` is false and the message names the ignored event type.  The
equation holds for every parsed payload uniformly, and the result carries no
classifier output, so the classifier is never consulted. -/
theorem route_ignores_non_push (body : List Nat) (signature : Option String)
    (e : String) (delivery : Option String) (secret : Option (List Nat))
    (parse : List Nat → Option JsVal) (payload : JsVal)
    (hver : verifyGitHubSignature body signature secret = .ok true)
    (hparse : parse body = some payload) (he : e ≠ "push") :
    webhookRoute body signature (some e) delivery secret parse =
      .ignored (e ++ " event ignored") false := by
  rw [webhookRoute, hver, hparse]
  have hbeq : (some e == some "push") = false := by
    simp only [beq_eq_false_iff_ne, ne_eq, Option.some.injEq]
    exact he
  rw [hbeq]
  rfl

/-- C9 witness: an `issues` event on a verified, parseable request. -/
theorem route_ignores_non_push_witness :
    webhookRoute [] none (some "issues") none none (fun _ => some (.obj [])) =
      .ignored "issues event ignored" false :=
  route_ignores_non_push [] none "issues" none none (fun _ => some (.obj [])) (.obj [])
    rfl rfl (by decide)

end Webhook
